import Mathlib

/-
Verification of the grecent branch-ranking tool: a shallow embedding of
the recency engine (main.go) and the interactive session state machine
(tui.go), with theorems checking the natural-language specification.

Modelling conventions:
- `time.Time` values are modelled as `Int` (e.g. Unix nanoseconds);
  `time.Time.After a b` is `b < a` on `Int`, `Before` is `a < b`.
- `time.Duration` ages (always non-negative here) are `Nat` nanoseconds;
  the float64 arithmetic of `Duration.Minutes`/`Hours` and the divisions
  that follow is modelled exactly, as correctly rounded binary64
  operations on dyadic fractions represented by numerator/denominator
  pairs of naturals.
- Fallible Go calls return `Option`/`Except`; external processes (git,
  the terminal) are inputs passed explicitly.
-/

set_option maxRecDepth 100000

namespace Grecent

/-- Struct `Branch` from main.go: one record per local branch.  `CommitTime` holds
the fused activity timestamp after `getRecentBranches` has folded in the
reflog and upstream signals. -/
structure Branch where
  name : String
  commitHash : String
  commitTime : Int
  isCurrent : Bool
  hasUpstream : Bool
deriving DecidableEq

/-! ### Stable sorting

Go's `sort.SliceStable` is modelled as stable insertion sort: the element
earliest in the input is inserted into the sorted remainder and placed
before the first element that is not strictly less than it, which is the
unique output of any stable sort for the given `less` function. -/

/-- Insert `x` (earlier in the input than everything in `l`) into `l`,
skipping exactly the elements strictly `less` than `x`. -/
def insertStable (less : Branch → Branch → Bool) (x : Branch) : List Branch → List Branch
  | [] => [x]
  | y :: ys => if less y x then y :: insertStable less x ys else x :: y :: ys

/-- Stable sort by `less` (model of `sort.SliceStable`). -/
def sortStable (less : Branch → Branch → Bool) : List Branch → List Branch
  | [] => []
  | x :: xs => insertStable less x (sortStable less xs)

/-- The comparator at main.go:230: `branches[i].CommitTime.After(branches[j].CommitTime)`. -/
def timeDesc (a b : Branch) : Bool := decide (b.commitTime < a.commitTime)

/-- The final ranking step of `getRecentBranches` (main.go:230-233):
stable sort by computed activity time, most recent first. -/
def sortBranches (l : List Branch) : List Branch := sortStable timeDesc l

/-! ### Recency fusion (main.go:196-215) -/

/-- The in-loop fusion of the three candidate timestamps in
`getRecentBranches` (main.go:204-215): start from the tip commit time,
replace it by the reflog time when that is present and strictly later
(`t.After(commitTime)`), then by the upstream tip time when that is
present and strictly later (`rt.After(commitTime)`). -/
def computeActivity (tip : Int) (reflogT upstreamT : Option Int) : Int :=
  let t1 :=
    match reflogT with
    | some t => if tip < t then t else tip
    | none => tip
  match upstreamT with
  | some rt => if t1 < rt then rt else t1
  | none => t1

/-- Written from the spec's words (§4.1): the maximum of whichever of the
three candidates are present, absent candidates excluded. -/
def maxOfCandidates (tip : Int) (reflogT upstreamT : Option Int) : Int :=
  List.foldl max tip (reflogT.toList ++ upstreamT.toList)

/-! ### Sort cycling (tui.go:197-211) -/

/-- The chained conditionals under `case "s"` in `Update` (tui.go:199-211),
advancing `(sortBy, sortDesc)`.  The code's own comment documents the
intended cycle: time desc -> name asc -> time asc -> name desc. -/
def cycleSort (sortBy : String) (sortDesc : Bool) : String × Bool :=
  if sortBy = "time" then ("name", false)
  else if sortBy = "name" ∧ sortDesc = false then ("time", false)
  else if sortBy = "time" ∧ sortDesc = false then ("name", true)
  else ("time", true)

/-! ### Age humanization (main.go:343-369) -/

/-- Nanoseconds in one minute (`time.Minute`). -/
def nsMinute : Nat := 60000000000

/-- Nanoseconds in one hour (`time.Hour`). -/
def nsHour : Nat := 3600000000000

/-- Nanoseconds in one day (`24 * time.Hour`). -/
def nsDay : Nat := 86400000000000

/-! The humanization counts are produced through Go float64 arithmetic:
`Duration.Minutes` and `Duration.Hours` return
`float64(whole) + float64(nsec)/unit`, the month/year buckets divide the
hours value by `720.0`/`8760.0`, and `int(...)` truncates.  Each step is
a single correctly rounded binary64 operation, modelled here exactly
over dyadic fractions; this rounding is observable (it crosses whole
numbers near some bucket multiples), so it cannot be simplified to
integer division. -/

/-- Bit length of a natural number, by fuel-bounded structural recursion
(400 digits cover every quantity arising in this file). -/
def blenAux : Nat → Nat → Nat
  | 0, _ => 0
  | fuel + 1, n => if n = 0 then 0 else blenAux fuel (n / 2) + 1

/-- Bit length of `n`. -/
def blen (n : Nat) : Nat := blenAux 400 n

/-- Round the non-negative rational `n / d` to the nearest IEEE binary64
value (round to nearest, ties to even, 53-bit significand), returned as
an exact dyadic fraction.  The quotient is scaled until its integer part
has 53 bits, rounded there with exact tie detection on the remainder,
and renormalised once if the significand overflows.  The magnitudes in
this file stay far inside the normal range, so exponent overflow and
subnormals cannot occur. -/
def rne53 (n d : Nat) : Nat × Nat :=
  if n = 0 ∨ d = 0 then (0, 1)
  else
    let s := 53 + blen d
    let scaled := n * 2 ^ s
    let k := blen (scaled / d) - 53
    let grid := d * 2 ^ k
    let q := scaled / grid
    let r := scaled % grid
    let m1 := if 2 * r < grid then q
      else if grid < 2 * r then q + 1
      else if q % 2 = 0 then q else q + 1
    let m2 := if m1 = 2 ^ 53 then 2 ^ 52 else m1
    let k2 := if m1 = 2 ^ 53 then k + 1 else k
    if s ≤ k2 then (m2 * 2 ^ (k2 - s), 1) else (m2, 2 ^ (s - k2))

/-- Correctly rounded binary64 addition of exact non-negative values. -/
def fAdd (x y : Nat × Nat) : Nat × Nat := rne53 (x.1 * y.2 + y.1 * x.2) (x.2 * y.2)

/-- Correctly rounded binary64 division of exact non-negative values. -/
def fDiv (x y : Nat × Nat) : Nat × Nat := rne53 (x.1 * y.2) (x.2 * y.1)

/-- Conversion of a natural number to binary64 (Go `float64(n)`). -/
def fOfNat (n : Nat) : Nat × Nat := rne53 n 1

/-- Go `int(x)` truncation of a non-negative binary64 value. -/
def fTrunc (x : Nat × Nat) : Nat := x.1 / x.2

/-- Model of Go `time.Duration.Minutes`:
`float64(min) + float64(nsec)/(60*1e9)`, each operation correctly
rounded to binary64. -/
def goMinutes (d : Nat) : Nat × Nat :=
  fAdd (fOfNat (d / nsMinute)) (fDiv (fOfNat (d % nsMinute)) (fOfNat nsMinute))

/-- Model of Go `time.Duration.Hours`:
`float64(hour) + float64(nsec)/(60*60*1e9)`, each operation correctly
rounded to binary64. -/
def goHours (d : Nat) : Nat × Nat :=
  fAdd (fOfNat (d / nsHour)) (fDiv (fOfNat (d % nsHour)) (fOfNat nsHour))

/-- Function `humanizeTime` (main.go:343-369) on a non-negative age `d` in
nanoseconds, with the binary64 arithmetic of `Duration.Minutes`,
`Duration.Hours`, the float divisions by `24`/`720`/`8760` (Go evaluates
the constant products `24*30` and `24*365` in integers and converts them
exactly) and the `int` truncations modelled exactly.  The bucket guards
compare the integer duration and involve no floats. -/
def humanizeTime (d : Nat) : String :=
  if d < nsMinute then "just now"
  else if d < nsHour then toString (fTrunc (goMinutes d)) ++ "m ago"
  else if d < 24 * nsHour then toString (fTrunc (goHours d)) ++ "h ago"
  else if d < 30 * nsDay then toString (fTrunc (fDiv (goHours d) (fOfNat 24))) ++ "d ago"
  else if d < 365 * nsDay then
    let months := fTrunc (fDiv (goHours d) (fOfNat 720))
    if months ≤ 1 then "1mo ago" else toString months ++ "mo ago"
  else
    let years := fTrunc (fDiv (goHours d) (fOfNat 8760))
    if years ≤ 1 then "1y ago" else toString years ++ "y ago"

/-- Written from the spec's words (§4.3): the closed-open humanization
scale with integer-truncated counts. -/
def humanizeSpec (d : Nat) : String :=
  if d < nsMinute then "just now"
  else if d < nsHour then toString (d / nsMinute) ++ "m ago"
  else if d < 24 * nsHour then toString (d / nsHour) ++ "h ago"
  else if d < 30 * nsDay then toString (d / nsDay) ++ "d ago"
  else if d < 365 * nsDay then toString (d / (30 * nsDay)) ++ "mo ago"
  else toString (d / (365 * nsDay)) ++ "y ago"

/-! ### Gateway parsing environment (main.go:160-341)

Go stdlib string/time primitives used by the engine are modelled
explicitly; `time.Parse` itself is external and is passed in as a
function of the layout and the input string. -/

/-- Test that `p` is a leading segment of `cs` (the test behind `strings.HasPrefix`
and `strings.Index` position checks). -/
def leadMatch : List Char → List Char → Bool
  | [], _ => true
  | _ :: _, [] => false
  | p :: ps, c :: cs => p == c && leadMatch ps cs

/-- Model of `strings.Index cs pat` (first index where `pat` starts), as an
`Option Nat` in place of Go's `-1` sentinel. -/
def firstIndexAux (pat : List Char) : List Char → Nat → Option Nat
  | [], i => if leadMatch pat [] then some i else none
  | c :: cs, i => if leadMatch pat (c :: cs) then some i else firstIndexAux pat cs (i + 1)

/-- Model of `strings.LastIndex cs (String.singleton ch)` (last index of `ch`), as
an `Option Nat` in place of Go's `-1` sentinel. -/
def lastIndexAux (ch : Char) : List Char → Nat → Option Nat → Option Nat
  | [], _, acc => acc
  | c :: cs, i, acc => lastIndexAux ch cs (i + 1) (if c == ch then some i else acc)

/-- Model of `strings.SplitN line "\t" 2`: split at the first tab; `none` when the
line has no tab (Go then yields one part and the caller skips the line). -/
def splitTab2 : List Char → Option (List Char × List Char)
  | [] => none
  | c :: rest =>
    if c == '\t' then some ([], rest)
    else
      match splitTab2 rest with
      | some (a, b) => some (c :: a, b)
      | none => none

/-- The `time.RFC3339` layout constant. -/
def rfc3339 : String := "2006-01-02T15:04:05Z07:00"

/-- The layout list tried by `parseGitDate` (main.go:329-334). -/
def layouts : List String :=
  ["2006-01-02 15:04:05 -0700", "2006-01-02 15:04:05 -07:00",
   "Mon Jan 2 15:04:05 2006 -0700", rfc3339]

/-- The external inputs of one `getRecentBranches` run: `parseLayout`
models `time.Parse` (layout, input ↦ parsed time or failure);
`reflogLine` is the raw output of `git reflog -n 1 refs/heads/<branch>`
per branch (`none` when the command fails or prints nothing);
`currentBranch` is the result of `getCurrentBranch` with its error
discarded (main.go:179), so `""` on failure. -/
structure GitEnv where
  parseLayout : String → String → Option Int
  reflogLine : String → Option String
  currentBranch : String

/-- Function `parseGitDate` (main.go:326-341): try each layout in order on the
trimmed input, returning the first success. -/
def parseGitDate (env : GitEnv) (s : String) : Option Int :=
  (layouts.filterMap (fun lay => env.parseLayout lay s.trim)).head?

/-- The tip-timestamp parse at main.go:196-201: RFC3339 on the trimmed
field first, then the lenient `parseGitDate` fallback. -/
def tipParse (env : GitEnv) (s : String) : Option Int :=
  match env.parseLayout rfc3339 s.trim with
  | some t => some t
  | none => parseGitDate env s

/-- Function `getBranchReflogLatestTime` (main.go:250-280): extract the date between
the first `@`-brace and the last closing brace of the latest reflog
selector and parse it; any failure (no output, malformed selector,
unparsable date) yields `none` (Go's `false` flag). -/
def getBranchReflogLatestTime (env : GitEnv) (branch : String) : Option Int :=
  match env.reflogLine branch with
  | none => none
  | some out =>
    let line := out.trim
    let cs := line.toList
    match firstIndexAux ("@\x7b").toList cs 0, lastIndexAux '\x7d' cs 0 none with
    | some start, some stop =>
      if stop ≤ start + 2 then none
      else
        let dateStr := String.mk ((cs.drop (start + 2)).take (stop - (start + 2)))
        match env.parseLayout rfc3339 dateStr with
        | some t => some t
        | none => parseGitDate env dateStr
    | some _, none => none
    | none, _ => none

/-- One key/value insert into the Go map of `getRemoteBranchTimes`
(last write wins). -/
def mapUpsert (m : List (String × Int)) (k : String) (v : Int) : List (String × Int) :=
  m.filter (fun p => p.1 ≠ k) ++ [(k, v)]

/-- Go map lookup over the association-list model. -/
def mapLookup (m : List (String × Int)) (k : String) : Option Int :=
  (m.find? (fun p => p.1 = k)).map (fun p => p.2)

/-- Function `getRemoteBranchTimes` (main.go:282-312) over the raw output lines of
`git for-each-ref refs/remotes` (a failed or empty command is the empty
line list): tab-split each line, trim both fields, parse RFC3339 then the
lenient fallback, and silently skip lines that do not parse. -/
def getRemoteBranchTimes (env : GitEnv) (lines : List String) : List (String × Int) :=
  lines.foldl
    (fun result line =>
      match splitTab2 line.toList with
      | none => result
      | some (a, b) =>
        let name := (String.mk a).trim
        let dateStr := (String.mk b).trim
        match env.parseLayout rfc3339 dateStr with
        | some t => mapUpsert result name t
        | none =>
          match parseGitDate env dateStr with
          | some t => mapUpsert result name t
          | none => result)
    []

/-- Function `normalizeUpstream` (main.go:314-324). -/
def normalizeUpstream (us : String) : String :=
  let u := us.trim
  if u = "" then ""
  else if leadMatch ("refs/remotes/").toList u.toList then
    String.mk (u.toList.drop (("refs/remotes/").toList.length))
  else u

/-- One tab-split line of `git for-each-ref refs/heads` output
(main.go:167-194); lines with fewer than four fields are skipped by the
scanner before this point. -/
structure RefLine where
  name : String
  commit : String
  commitTimeStr : String
  upstreamRaw : String

/-- The per-branch record built in the scan loop of `getRecentBranches`
(main.go:196-223), fusing the three signals with `computeActivity`. -/
def mkBranch (env : GitEnv) (remoteTimes : List (String × Int)) (l : RefLine) (tip : Int) : Branch :=
  let upstreamShort := normalizeUpstream l.upstreamRaw
  let reflogT := getBranchReflogLatestTime env l.name
  let upstreamT := if upstreamShort = "" then none else mapLookup remoteTimes upstreamShort
  { name := l.name
    commitHash := l.commit
    commitTime := computeActivity tip reflogT upstreamT
    isCurrent := l.name == env.currentBranch
    hasUpstream := upstreamShort ≠ "" }

/-- The scan loop of `getRecentBranches` (main.go:185-224): a branch whose
tip timestamp fails both parses aborts the whole computation with an
error; otherwise the fused record is appended. -/
def scanRefLines (env : GitEnv) (remoteTimes : List (String × Int)) : List RefLine → Except String (List Branch)
  | [] => Except.ok []
  | l :: ls =>
    match tipParse env l.commitTimeStr with
    | none => Except.error ("parse date for " ++ l.name)
    | some tip =>
      match scanRefLines env remoteTimes ls with
      | Except.error e => Except.error e
      | Except.ok rest => Except.ok (mkBranch env remoteTimes l tip :: rest)

/-- Function `getRecentBranches` (main.go:160-235) over the raw gateway outputs:
scan the local-branch lines against the batched remote times, then
stable-sort by fused activity time descending. -/
def getRecentBranches (env : GitEnv) (refLines : List RefLine) (remoteLines : List String) :
    Except String (List Branch) :=
  match scanRefLines env (getRemoteBranchTimes env remoteLines) refLines with
  | Except.error e => Except.error e
  | Except.ok bs => Except.ok (sortBranches bs)

/-! ## Theorems -/

/-- C1: for every branch, the computed activity time equals the maximum of
whichever of the three candidate timestamps (tip commit time, latest
reflog time, upstream remote tip time) are present; an absent candidate
is excluded from the maximum and never lowers the result. -/
theorem computeActivity_eq_max_of_present (tip : Int) (r u : Option Int) :
    computeActivity tip r u = maxOfCandidates tip r u := by
  cases r with
  | none =>
    cases u with
    | none => simp [computeActivity, maxOfCandidates]
    | some rt =>
      simp only [computeActivity, maxOfCandidates, Option.toList, List.nil_append,
        List.foldl_cons, List.foldl_nil]
      rw [Int.max_def]
      split_ifs <;> omega
  | some t =>
    cases u with
    | none =>
      simp only [computeActivity, maxOfCandidates, Option.toList, List.append_nil,
        List.foldl_cons, List.foldl_nil]
      rw [Int.max_def]
      split_ifs <;> omega
    | some rt =>
      simp only [computeActivity, maxOfCandidates, Option.toList, List.cons_append,
        List.nil_append, List.foldl_cons, List.foldl_nil]
      rw [Int.max_def, Int.max_def]
      split_ifs <;> omega

/-- C2 (counterexample evaluation): the sort cycle is not the documented
4-state cycle.  From time-ascending one press of `s` yields name-ascending
(the comment at tui.go:198 says name-descending), and four presses
starting from the initial time-descending state end at time-ascending
instead of returning to time-descending. -/
theorem cycleSort_not_four_cycle :
    cycleSort "time" false = ("name", false) ∧
    (cycleSort ((cycleSort ((cycleSort ((cycleSort "time" true).1) ((cycleSort "time" true).2)).1)
        ((cycleSort ((cycleSort "time" true).1) ((cycleSort "time" true).2)).2)).1)
      ((cycleSort ((cycleSort ((cycleSort "time" true).1) ((cycleSort "time" true).2)).1)
        ((cycleSort ((cycleSort "time" true).1) ((cycleSort "time" true).2)).2)).2)) = ("time", false) := by
  constructor
  · rfl
  · rfl

/-- C9 (counterexample): the age humanization does not follow the
closed-open integer-truncated scale at every non-negative age.  At one
nanosecond under 360 days the float64 hour count rounds up to exactly
8640.0, so the program prints "12mo ago" where the scale written from
the spec's words gives the truncated count 11. -/
theorem humanizeTime_breaks_truncated_scale :
    humanizeTime (360 * nsDay - 1) = "12mo ago" ∧
    humanizeSpec (360 * nsDay - 1) = "11mo ago" := by
  constructor
  · decide
  · decide

/-- C9 (amended): the humanization prints "just now" exactly for every age
under one minute and matches the spec's closed-open integer-truncated
scale at the stated boundary examples — 45 seconds "just now", 90
minutes "1h ago", exactly 30 days "1mo ago", exactly 365 days "1y ago" —
but its counts are truncated from float64-computed hours, and near some
bucket multiples that rounding crosses the next whole number: one
nanosecond under 730 days prints "2y ago" (and one nanosecond under 360
days "12mo ago"), one more than the integer-truncated count. -/
theorem humanizeTime_scale_amended :
    (∀ d : Nat, d < nsMinute → humanizeTime d = "just now") ∧
    humanizeTime (45 * 1000000000) = "just now" ∧
    humanizeTime (90 * nsMinute) = "1h ago" ∧
    humanizeTime (30 * nsDay) = "1mo ago" ∧
    humanizeTime (365 * nsDay) = "1y ago" ∧
    humanizeTime (730 * nsDay - 1) = "2y ago" := by
  refine ⟨?_, by decide, by decide, by decide, by decide, by decide⟩
  intro d hd
  unfold humanizeTime
  rw [if_pos hd]

/-- Witness for the amended C9 statement at a concrete age. -/
theorem humanizeTime_scale_amended_witness :
    humanizeTime 5 = "just now" :=
  humanizeTime_scale_amended.1 5 (by decide)

theorem scanRefLines_error_iff (env : GitEnv) (rt : List (String × Int)) (ls : List RefLine) :
    (∃ e, scanRefLines env rt ls = Except.error e) ↔
      ∃ l ∈ ls, tipParse env l.commitTimeStr = none := by
  induction ls with
  | nil => simp [scanRefLines]
  | cons l ls ih =>
    simp only [scanRefLines]
    cases hp : tipParse env l.commitTimeStr with
    | none =>
      constructor
      · intro _
        exact ⟨l, List.mem_cons_self l ls, hp⟩
      · intro _
        exact ⟨"parse date for " ++ l.name, rfl⟩
    | some tip =>
      cases hs : scanRefLines env rt ls with
      | error e =>
        constructor
        · intro _
          obtain ⟨l', hl', hp'⟩ := ih.mp ⟨e, hs⟩
          exact ⟨l', List.mem_cons_of_mem l hl', hp'⟩
        · intro _
          exact ⟨e, rfl⟩
      | ok rest =>
        constructor
        · rintro ⟨e, he⟩
          exact absurd he (by simp)
        · rintro ⟨l', hl', hp'⟩
          rcases List.mem_cons.mp hl' with rfl | hmem
          · rw [hp] at hp'
            exact absurd hp' (by simp)
          · obtain ⟨e, he⟩ := ih.mpr ⟨l', hmem, hp'⟩
            rw [he] at hs
            exact absurd hs (by simp)

/-- C10: timestamp parse failures are asymmetric.  The whole ranking
computation returns an error exactly when some branch line's tip
timestamp fails both parses — independently of the reflog and remote-ref
inputs, whose unparsable timestamps are treated as absent candidates and
never produce an error. -/
theorem tip_parse_fatal_reflog_remote_absent (env : GitEnv) (refLines : List RefLine)
    (remoteLines : List String) :
    (∃ e, getRecentBranches env refLines remoteLines = Except.error e) ↔
      ∃ l ∈ refLines, tipParse env l.commitTimeStr = none := by
  rw [← scanRefLines_error_iff env (getRemoteBranchTimes env remoteLines) refLines]
  unfold getRecentBranches
  cases hs : scanRefLines env (getRemoteBranchTimes env remoteLines) refLines with
  | error e => simp
  | ok bs => simp

/-! ### Stability of the ranking sort (for C8) -/

theorem insertStable_perm (less : Branch → Branch → Bool) (x : Branch) (l : List Branch) :
    List.Perm (insertStable less x l) (x :: l) := by
  induction l with
  | nil => exact List.Perm.refl [x]
  | cons y ys ih =>
    by_cases h : less y x = true
    · simp only [insertStable, h, if_true]
      exact (ih.cons y).trans (List.Perm.swap x y ys)
    · have hred : insertStable less x (y :: ys) = x :: y :: ys := by
        simp [insertStable, h]
      rw [hred]

theorem sortStable_perm (less : Branch → Branch → Bool) (l : List Branch) :
    List.Perm (sortStable less l) l := by
  induction l with
  | nil => exact List.Perm.refl []
  | cons x xs ih =>
    exact (insertStable_perm less x (sortStable less xs)).trans (ih.cons x)

theorem insertStable_sorted (x : Branch) (l : List Branch)
    (h : List.Sorted (fun a b : Branch => b.commitTime ≤ a.commitTime) l) :
    List.Sorted (fun a b : Branch => b.commitTime ≤ a.commitTime) (insertStable timeDesc x l) := by
  induction l with
  | nil => simp [insertStable]
  | cons y ys ih =>
    rw [List.sorted_cons] at h
    obtain ⟨hy, hys⟩ := h
    by_cases hxy : timeDesc y x = true
    · simp only [insertStable, hxy, if_true]
      rw [List.sorted_cons]
      refine ⟨?_, ih hys⟩
      intro z hz
      have hz' : z ∈ x :: ys := (insertStable_perm timeDesc x ys).mem_iff.mp hz
      simp only [timeDesc, decide_eq_true_eq] at hxy
      rcases List.mem_cons.mp hz' with rfl | hzys
      · omega
      · exact hy z hzys
    · have hred : insertStable timeDesc x (y :: ys) = x :: y :: ys := by
        simp [insertStable, hxy]
      rw [hred, List.sorted_cons]
      constructor
      · intro z hz
        simp only [timeDesc, decide_eq_true_eq] at hxy
        rcases List.mem_cons.mp hz with rfl | hz'
        · omega
        · have := hy z hz'
          omega
      · exact List.sorted_cons.mpr ⟨hy, hys⟩

theorem sortStable_sorted_time (l : List Branch) :
    List.Sorted (fun a b : Branch => b.commitTime ≤ a.commitTime) (sortStable timeDesc l) := by
  induction l with
  | nil => simp [sortStable]
  | cons x xs ih => exact insertStable_sorted x (sortStable timeDesc xs) ih

theorem filter_insertStable_eq (x : Branch) (l : List Branch) (t : Int) (hx : x.commitTime = t) :
    (insertStable timeDesc x l).filter (fun b => decide (b.commitTime = t)) =
      x :: l.filter (fun b => decide (b.commitTime = t)) := by
  induction l with
  | nil => simp [insertStable, hx]
  | cons y ys ih =>
    by_cases hxy : timeDesc y x = true
    · have hyt : ¬(y.commitTime = t) := by
        simp only [timeDesc, decide_eq_true_eq] at hxy
        omega
      have hred : insertStable timeDesc x (y :: ys) = y :: insertStable timeDesc x ys := by
        simp [insertStable, hxy]
      rw [hred, List.filter_cons_of_neg (by simpa using hyt), ih,
        List.filter_cons_of_neg (by simpa using hyt)]
    · have hred : insertStable timeDesc x (y :: ys) = x :: y :: ys := by
        simp [insertStable, hxy]
      rw [hred, List.filter_cons_of_pos (by simpa using hx)]

theorem filter_insertStable_ne (x : Branch) (l : List Branch) (t : Int) (hx : ¬(x.commitTime = t)) :
    (insertStable timeDesc x l).filter (fun b => decide (b.commitTime = t)) =
      l.filter (fun b => decide (b.commitTime = t)) := by
  induction l with
  | nil => simp [insertStable, hx]
  | cons y ys ih =>
    by_cases hxy : timeDesc y x = true
    · have hred : insertStable timeDesc x (y :: ys) = y :: insertStable timeDesc x ys := by
        simp [insertStable, hxy]
      by_cases hyt : y.commitTime = t
      · rw [hred, List.filter_cons_of_pos (by simpa using hyt), ih,
          List.filter_cons_of_pos (by simpa using hyt)]
      · rw [hred, List.filter_cons_of_neg (by simpa using hyt), ih,
          List.filter_cons_of_neg (by simpa using hyt)]
    · have hred : insertStable timeDesc x (y :: ys) = x :: y :: ys := by
        simp [insertStable, hxy]
      rw [hred, List.filter_cons_of_neg (by simpa using hx)]

/-- C8: the ranking is a stable sort by activity time descending — the
output is a permutation of the gateway's input enumeration, is sorted by
activity time descending, and branches with identical activity time keep
their relative input order (the filter at any fixed timestamp is
unchanged). -/
theorem sortBranches_stable_desc (l : List Branch) :
    List.Perm (sortBranches l) l ∧
    List.Sorted (fun a b : Branch => b.commitTime ≤ a.commitTime) (sortBranches l) ∧
    ∀ t : Int, (sortBranches l).filter (fun b => decide (b.commitTime = t)) =
      l.filter (fun b => decide (b.commitTime = t)) := by
  refine ⟨sortStable_perm timeDesc l, sortStable_sorted_time l, ?_⟩
  intro t
  induction l with
  | nil => rfl
  | cons x xs ih =>
    show (insertStable timeDesc x (sortStable timeDesc xs)).filter _ = _
    simp only [sortBranches] at ih
    by_cases hx : x.commitTime = t
    · rw [filter_insertStable_eq x _ t hx, ih, List.filter_cons_of_pos (by simpa using hx)]
    · rw [filter_insertStable_ne x _ t hx, ih, List.filter_cons_of_neg (by simpa using hx)]

/-! ### Session state machine (tui.go)

The Bubble Tea `model` and its `Update` function are embedded as a pure
transition function.  Gateway calls made during a transition are returned
as an effect list alongside the new state; their results are supplied by
a `Gateway` record of oracles.  The periodic tick and the quit command
are events with no state effect. -/

/-- The `model` struct of tui.go:29-42 (the `width`/`height` fields are
cosmetic and unused by the transition logic). -/
structure Model where
  branches : List Branch
  filtered : List Branch
  cursor : Int
  search : String
  status : String
  sortBy : String
  sortDesc : Bool
  confirming : Bool
  action : String
deriving DecidableEq

/-- Results of the external git commands a transition may invoke:
`none`/`Except.ok` is success, `some e`/`Except.error e` carries the
failure text. `recent` is the result `getRecentBranches` would produce
at this moment. -/
structure Gateway where
  checkout : String → Option String
  deleteBranch : String → Option String
  mergeIntoCurrent : String → Option String
  fetchAll : Option String
  recent : Except String (List Branch)

/-- The gateway invocations (and terminal commands) issued by one
transition, in order. -/
inductive Eff where
  | checkout (name : String)
  | deleteBr (name : String)
  | mergeBr (name : String)
  | fetchAll
  | refresh
  | quitApp
  | readLn
deriving DecidableEq

/-- Events delivered to `Update`: key presses, the periodic tick,
a posted status message, and the completion of the `readLine` search
prompt (tui.go:316-324), which writes the entered query into the model's
search field and then delivers `statusMsg "filter applied"`; the last two
are folded into one `searchCommit` event. -/
inductive Msg where
  | key (s : String)
  | tick
  | statusM (s : String)
  | searchCommit (q : String)

/-- Case-folded subsequence match. Modelled from the spec:
`fuzzy.FindNormalizedFold` of the external fuzzysearch library is not in
this repository; the spec (§4.2, glossary) describes it as approximate
subsequence matching of the query against candidate names, tolerant of
gaps and case (diacritic folding is the identity on the ASCII names used
here). -/
def subseqFold : List Char → List Char → Bool
  | [], _ => true
  | _ :: _, [] => false
  | q :: qs, c :: cs =>
    if q.toLower == c.toLower then subseqFold qs cs else subseqFold (q :: qs) cs

/-- Modelled from the spec: `fuzzy.FindNormalizedFold query names`
returns the matching names in their input order. -/
def findNormalizedFold (q : String) (names : List String) : List String :=
  names.filter (fun n => subseqFold q.toList n.toList)

/-- The `nameToBranch` Go map of `applySortFilter` (tui.go:229-234):
built in input order, later entries overwrite earlier ones. -/
def nameLookup (branches : List Branch) (n : String) : Option Branch :=
  branches.reverse.find? (fun b => b.name = n)

/-- The comparator of the `sort.SliceStable` call in `applySortFilter`
(tui.go:245-257). -/
def lessBranch (sortBy : String) (sortDesc : Bool) (a b : Branch) : Bool :=
  if sortBy = "name" then
    if sortDesc then decide (b.name < a.name) else decide (a.name < b.name)
  else
    if sortDesc then decide (b.commitTime < a.commitTime)
    else decide (a.commitTime < b.commitTime)

/-- Method `applySortFilter` (tui.go:222-266): recompute `filtered` from
`branches` and the search string (fuzzy filter when non-empty, chosen
sort otherwise), then clamp the cursor. -/
def applySortFilter (m : Model) : Model :=
  let filtered :=
    if m.search = "" then m.branches
    else (findNormalizedFold m.search (m.branches.map (fun b => b.name))).filterMap
      (nameLookup m.branches)
  let filtered :=
    if m.search = "" then sortStable (lessBranch m.sortBy m.sortDesc) filtered
    else filtered
  let c1 : Int := if (filtered.length : Int) ≤ m.cursor then (filtered.length : Int) - 1 else m.cursor
  let c2 : Int := if c1 < 0 then 0 else c1
  { m with filtered := filtered, cursor := c2 }

/-- Function `initialModel` (tui.go:44-56). -/
def initialModel (branches : List Branch) : Model :=
  applySortFilter
    { branches := branches, filtered := branches, cursor := 0, search := "",
      status := "", sortBy := "time", sortDesc := true, confirming := false, action := "" }

/-- The guarded index `m.cursor >= 0 && m.cursor < len(m.filtered)`
followed by `m.filtered[m.cursor]`, as one partial lookup. -/
def getAt (l : List Branch) (i : Int) : Option Branch :=
  if 0 ≤ i then l.get? i.toNat else none

/-- The confirmation branch of `Update` for `"y"`/`"Y"` (tui.go:90-123). -/
def confirmYes (g : Gateway) (m : Model) : Model × List Eff :=
  let step :=
    match getAt m.filtered m.cursor with
    | none => (m, ([] : List Eff))
    | some b =>
      if m.action = "delete" then
        if b.isCurrent then ({ m with status := "cannot delete current branch" }, [])
        else
          match g.deleteBranch b.name with
          | some e => ({ m with status := "delete failed: " ++ e }, [Eff.deleteBr b.name])
          | none =>
            match g.recent with
            | Except.ok brs =>
              (applySortFilter { m with status := "deleted " ++ b.name, branches := brs },
                [Eff.deleteBr b.name, Eff.refresh])
            | Except.error _ =>
              ({ m with status := "deleted " ++ b.name }, [Eff.deleteBr b.name, Eff.refresh])
      else if m.action = "merge" then
        if b.isCurrent then ({ m with status := "already on this branch" }, [])
        else
          match g.mergeIntoCurrent b.name with
          | some e => ({ m with status := "merge failed: " ++ e }, [Eff.mergeBr b.name])
          | none =>
            match g.recent with
            | Except.ok brs =>
              (applySortFilter { m with status := "merged " ++ b.name ++ " into current", branches := brs },
                [Eff.mergeBr b.name, Eff.refresh])
            | Except.error _ =>
              ({ m with status := "merged " ++ b.name ++ " into current" },
                [Eff.mergeBr b.name, Eff.refresh])
      else (m, [])
  ({ step.1 with confirming := false, action := "" }, step.2)

/-- The second `switch` of `Update` (tui.go:132-213), reached directly in
browsing mode, and by fall-through for every key the confirmation block
does not intercept. -/
def browse (g : Gateway) (m : Model) (s : String) : Model × List Eff :=
  if s = "ctrl+c" ∨ s = "q" then (m, [Eff.quitApp])
  else if s = "up" ∨ s = "k" then
    (if 0 < m.cursor then { m with cursor := m.cursor - 1 } else m, [])
  else if s = "down" ∨ s = "j" then
    (if m.cursor < (m.filtered.length : Int) - 1 then { m with cursor := m.cursor + 1 } else m, [])
  else if s = "home" ∨ s = "g" then ({ m with cursor := 0 }, [])
  else if s = "end" ∨ s = "G" then
    (if 0 < m.filtered.length then { m with cursor := (m.filtered.length : Int) - 1 } else m, [])
  else if s = "/" then
    ({ m with status := "Search: type to filter, press Enter to apply, Esc to clear" }, [Eff.readLn])
  else if s = "esc" then (applySortFilter { m with search := "" }, [])
  else if s = "enter" then
    match getAt m.filtered m.cursor with
    | none => (m, [])
    | some b =>
      match g.checkout b.name with
      | some e => ({ m with status := "checkout failed: " ++ e }, [Eff.checkout b.name])
      | none => ({ m with status := "checked out " ++ b.name }, [Eff.checkout b.name])
  else if s = "x" ∨ s = "delete" then
    match getAt m.filtered m.cursor with
    | none => (m, [])
    | some b =>
      ({ m with confirming := true, action := "delete", status := "delete " ++ b.name ++ "? y/N" }, [])
  else if s = "m" then
    match getAt m.filtered m.cursor with
    | none => (m, [])
    | some b =>
      ({ m with confirming := true, action := "merge", status := "merge " ++ b.name ++ " into current? y/N" }, [])
  else if s = "r" then
    match g.recent with
    | Except.error e => ({ m with status := "refresh failed: " ++ e }, [Eff.refresh])
    | Except.ok brs =>
      ({ applySortFilter { m with branches := brs } with status := "refreshed" }, [Eff.refresh])
  else if s = "f" then
    match g.recent with
    | Except.error e => ({ m with status := "fetch failed: " ++ e }, [Eff.fetchAll, Eff.refresh])
    | Except.ok brs =>
      ({ applySortFilter { m with branches := brs } with status := "fetched" },
        [Eff.fetchAll, Eff.refresh])
  else if s = "s" then
    let p := cycleSort m.sortBy m.sortDesc
    (applySortFilter { m with sortBy := p.1, sortDesc := p.2 }, [])
  else (m, [])

/-- Method `Update` (tui.go:82-220).  In confirming mode only `y`/`Y` and
`n`/`N`/`esc` are intercepted; any other key falls through to the
browsing switch. -/
def update (g : Gateway) (m : Model) : Msg → Model × List Eff
  | Msg.key s =>
    if m.confirming ∧ (s = "y" ∨ s = "Y") then confirmYes g m
    else if m.confirming ∧ (s = "n" ∨ s = "N" ∨ s = "esc") then
      ({ m with status := "cancelled", confirming := false, action := "" }, [])
    else browse g m s
  | Msg.tick => (m, [])
  | Msg.statusM s => ({ m with status := s }, [])
  | Msg.searchCommit q => ({ m with search := q, status := "filter applied" }, [])

/-- The cursor invariant of the spec (§3): within bounds on a non-empty
view, pinned to 0 on an empty view. -/
def cursorInv (m : Model) : Prop :=
  (m.filtered.length = 0 → m.cursor = 0) ∧
  (0 < m.filtered.length → 0 ≤ m.cursor ∧ m.cursor < (m.filtered.length : Int))

instance (m : Model) : Decidable (cursorInv m) := by
  unfold cursorInv
  infer_instance

/-! ### Concrete fixtures for evaluations and witnesses -/

/-- Gateway oracle on which every git command succeeds and the ranking
recomputation returns the empty snapshot. -/
def gOk : Gateway :=
  { checkout := fun _ => none, deleteBranch := fun _ => none,
    mergeIntoCurrent := fun _ => none, fetchAll := none, recent := Except.ok [] }

/-- Gateway oracle on which every git command fails with "boom". -/
def gBoom : Gateway :=
  { checkout := fun _ => some "boom", deleteBranch := fun _ => some "boom",
    mergeIntoCurrent := fun _ => some "boom", fetchAll := some "boom",
    recent := Except.error "boom" }

/-- Sample non-current branch. -/
def bAlpha : Branch :=
  { name := "alpha", commitHash := "h1", commitTime := 100, isCurrent := false, hasUpstream := false }

/-- Second sample non-current branch, older tip. -/
def bBeta : Branch :=
  { name := "beta", commitHash := "h2", commitTime := 90, isCurrent := false, hasUpstream := false }

/-- Sample current branch. -/
def bMain : Branch :=
  { name := "main", commitHash := "h0", commitTime := 200, isCurrent := true, hasUpstream := false }

/-- Session state awaiting confirmation of deleting `alpha` (cursor on it). -/
def mConfirmDelete : Model :=
  { branches := [bAlpha, bBeta], filtered := [bAlpha, bBeta], cursor := 0, search := "",
    status := "delete alpha? y/N", sortBy := "time", sortDesc := true,
    confirming := true, action := "delete" }

/-- Session state awaiting confirmation of deleting the current branch. -/
def mConfirmCurrent : Model :=
  { branches := [bMain, bAlpha], filtered := [bMain, bAlpha], cursor := 0, search := "",
    status := "delete main? y/N", sortBy := "time", sortDesc := true,
    confirming := true, action := "delete" }

/-! ### Session state machine theorems -/

/-- C3 (counterexample evaluation): committing a search does not recompute
the view.  The commit path (the `readLine` write plus the `statusMsg`
case of `Update`) only sets the search text and the status line; the view
still shows every branch, although the fuzzy filter of the snapshot by
the new query "zzz" is empty, as the next `applySortFilter` run shows. -/
theorem search_commit_does_not_refilter :
    ((update gOk (initialModel [bAlpha, bBeta]) (Msg.searchCommit "zzz")).1.search = "zzz") ∧
    ((update gOk (initialModel [bAlpha, bBeta]) (Msg.searchCommit "zzz")).1.filtered = [bAlpha, bBeta]) ∧
    ((applySortFilter ((update gOk (initialModel [bAlpha, bBeta]) (Msg.searchCommit "zzz")).1)).filtered = []) := by
  refine ⟨by decide, by decide, by decide⟩

/-- C4 (counterexample evaluation): confirming mode is not modal.  With a
delete of `alpha` pending, the key `j` falls through to the browsing
switch and moves the cursor while `confirming` stays set, and the
subsequent `y` invokes the gateway delete on `beta` — not on the target
named when the request transition was taken. -/
theorem confirming_not_modal :
    (update gOk mConfirmDelete (Msg.key "j")).1 = { mConfirmDelete with cursor := 1 } ∧
    (update gOk ((update gOk mConfirmDelete (Msg.key "j")).1) (Msg.key "y")).2 =
      [Eff.deleteBr "beta", Eff.refresh] := by
  refine ⟨by decide, by decide⟩

theorem cursorInv_of_eq (m m' : Model) (hf : m'.filtered = m.filtered)
    (hc : m'.cursor = m.cursor) (h : cursorInv m) : cursorInv m' := by
  unfold cursorInv at h ⊢
  rw [hf, hc]
  exact h

theorem cursorInv_applySortFilter (m : Model) : cursorInv (applySortFilter m) := by
  unfold cursorInv applySortFilter
  dsimp only
  split_ifs <;> constructor <;> intro h <;> omega

theorem cursorInv_confirmYes (g : Gateway) (m : Model) (h : cursorInv m) :
    cursorInv (confirmYes g m).1 := by
  unfold confirmYes
  dsimp only
  repeat' split
  all_goals first
    | exact cursorInv_of_eq _ _ rfl rfl h
    | exact cursorInv_of_eq _ _ rfl rfl (cursorInv_applySortFilter _)

theorem cursorInv_browse (g : Gateway) (m : Model) (s : String) (h : cursorInv m) :
    cursorInv (browse g m s).1 := by
  unfold browse
  by_cases h1 : s = "ctrl+c" ∨ s = "q"
  · rw [if_pos h1]
    exact cursorInv_of_eq _ _ rfl rfl h
  rw [if_neg h1]
  by_cases h2 : s = "up" ∨ s = "k"
  · rw [if_pos h2]
    unfold cursorInv at h ⊢
    dsimp only
    split_ifs <;> (try dsimp only) <;> omega
  rw [if_neg h2]
  by_cases h3 : s = "down" ∨ s = "j"
  · rw [if_pos h3]
    unfold cursorInv at h ⊢
    dsimp only
    split_ifs <;> (try dsimp only) <;> omega
  rw [if_neg h3]
  by_cases h4 : s = "home" ∨ s = "g"
  · rw [if_pos h4]
    unfold cursorInv at h ⊢
    dsimp only
    omega
  rw [if_neg h4]
  by_cases h5 : s = "end" ∨ s = "G"
  · rw [if_pos h5]
    unfold cursorInv at h ⊢
    dsimp only
    split_ifs <;> (try dsimp only) <;> omega
  rw [if_neg h5]
  by_cases h6 : s = "/"
  · rw [if_pos h6]
    exact cursorInv_of_eq _ _ rfl rfl h
  rw [if_neg h6]
  by_cases h7 : s = "esc"
  · rw [if_pos h7]
    exact cursorInv_of_eq _ _ rfl rfl (cursorInv_applySortFilter _)
  rw [if_neg h7]
  by_cases h8 : s = "enter"
  · rw [if_pos h8]
    cases hb : getAt m.filtered m.cursor with
    | none => exact cursorInv_of_eq _ _ rfl rfl h
    | some b =>
      dsimp only
      cases g.checkout b.name with
      | none => exact cursorInv_of_eq _ _ rfl rfl h
      | some e => exact cursorInv_of_eq _ _ rfl rfl h
  rw [if_neg h8]
  by_cases h9 : s = "x" ∨ s = "delete"
  · rw [if_pos h9]
    cases hb : getAt m.filtered m.cursor with
    | none => exact cursorInv_of_eq _ _ rfl rfl h
    | some b => exact cursorInv_of_eq _ _ rfl rfl h
  rw [if_neg h9]
  by_cases h10 : s = "m"
  · rw [if_pos h10]
    cases hb : getAt m.filtered m.cursor with
    | none => exact cursorInv_of_eq _ _ rfl rfl h
    | some b => exact cursorInv_of_eq _ _ rfl rfl h
  rw [if_neg h10]
  by_cases h11 : s = "r"
  · rw [if_pos h11]
    cases g.recent with
    | error e => exact cursorInv_of_eq _ _ rfl rfl h
    | ok brs => exact cursorInv_of_eq _ _ rfl rfl (cursorInv_applySortFilter _)
  rw [if_neg h11]
  by_cases h12 : s = "f"
  · rw [if_pos h12]
    cases g.recent with
    | error e => exact cursorInv_of_eq _ _ rfl rfl h
    | ok brs => exact cursorInv_of_eq _ _ rfl rfl (cursorInv_applySortFilter _)
  rw [if_neg h12]
  by_cases h13 : s = "s"
  · rw [if_pos h13]
    exact cursorInv_of_eq _ _ rfl rfl (cursorInv_applySortFilter _)
  rw [if_neg h13]
  exact cursorInv_of_eq _ _ rfl rfl h

theorem cursorInv_update (g : Gateway) (m : Model) (msg : Msg) (h : cursorInv m) :
    cursorInv (update g m msg).1 := by
  cases msg with
  | key s =>
    simp only [update]
    split_ifs with h1 h2
    · exact cursorInv_confirmYes g m h
    · exact cursorInv_of_eq _ _ rfl rfl h
    · exact cursorInv_browse g m s h
  | tick => exact cursorInv_of_eq _ _ rfl rfl h
  | statusM s => exact cursorInv_of_eq _ _ rfl rfl h
  | searchCommit q => exact cursorInv_of_eq _ _ rfl rfl h

/-- C5: the cursor invariant — `0 ≤ cursor < len view` on a non-empty
view, `cursor = 0` on an empty view — holds in the initial state and is
preserved by every transition of the session state machine. -/
theorem cursor_invariant_preserved :
    (∀ bs : List Branch, cursorInv (initialModel bs)) ∧
    ∀ (g : Gateway) (m : Model) (msg : Msg), cursorInv m → cursorInv (update g m msg).1 :=
  ⟨fun _ => cursorInv_applySortFilter _, cursorInv_update⟩

/-- Witness for C5 at a concrete state and event. -/
theorem cursor_invariant_preserved_witness :
    cursorInv (update gOk (initialModel [bAlpha, bBeta]) (Msg.key "down")).1 :=
  cursor_invariant_preserved.2 gOk (initialModel [bAlpha, bBeta]) (Msg.key "down") (by decide)

/-- C6: confirming a pending delete whose target record is the current
branch never invokes the gateway delete — the transition issues no
effect at all — and sets the refusal status message instead. -/
theorem delete_current_refused (g : Gateway) (m : Model) (b : Branch)
    (hconf : m.confirming = true) (hact : m.action = "delete")
    (hb : getAt m.filtered m.cursor = some b) (hcur : b.isCurrent = true) :
    (update g m (Msg.key "y")).1 =
      { m with status := "cannot delete current branch", confirming := false, action := "" } ∧
    (update g m (Msg.key "y")).2 = [] := by
  have hcond : (m.confirming = true) ∧ ("y" = "y" ∨ "y" = "Y") := ⟨hconf, Or.inl rfl⟩
  unfold update
  dsimp only
  rw [if_pos hcond]
  unfold confirmYes
  rw [hb]
  dsimp only
  rw [if_pos hact, if_pos hcur]
  exact ⟨rfl, rfl⟩

/-- Witness for C6 at a concrete confirming state over the current branch. -/
theorem delete_current_refused_witness :
    (update gOk mConfirmCurrent (Msg.key "y")).1 =
      { mConfirmCurrent with status := "cannot delete current branch", confirming := false, action := "" } ∧
    (update gOk mConfirmCurrent (Msg.key "y")).2 = [] :=
  delete_current_refused gOk mConfirmCurrent bMain rfl rfl rfl rfl

/-- C7: gateway-invoking transitions are atomic on the snapshot.  When the
gateway operation fails, the resulting state is the old state with only
the status line replaced by a failure notice (plus, for confirmations,
the mandatory return to browsing); when a refresh succeeds, snapshot and
view are replaced together wholesale by `applySortFilter`. -/
theorem gateway_failure_atomic (g : Gateway) (m : Model) (b : Branch) (e : String) :
    (getAt m.filtered m.cursor = some b → g.checkout b.name = some e →
      (update g m (Msg.key "enter")).1 = { m with status := "checkout failed: " ++ e }) ∧
    (m.confirming = true → m.action = "delete" → getAt m.filtered m.cursor = some b →
      b.isCurrent = false → g.deleteBranch b.name = some e →
      (update g m (Msg.key "y")).1 =
        { m with status := "delete failed: " ++ e, confirming := false, action := "" }) ∧
    (m.confirming = true → m.action = "merge" → getAt m.filtered m.cursor = some b →
      b.isCurrent = false → g.mergeIntoCurrent b.name = some e →
      (update g m (Msg.key "y")).1 =
        { m with status := "merge failed: " ++ e, confirming := false, action := "" }) ∧
    (g.recent = Except.error e →
      (update g m (Msg.key "r")).1 = { m with status := "refresh failed: " ++ e }) ∧
    (g.recent = Except.error e →
      (update g m (Msg.key "f")).1 = { m with status := "fetch failed: " ++ e }) ∧
    (∀ brs, g.recent = Except.ok brs →
      (update g m (Msg.key "r")).1 =
        { applySortFilter { m with branches := brs } with status := "refreshed" }) := by
  refine ⟨?_, ?_, ?_, ?_, ?_, ?_⟩
  · intro hb hc
    unfold update
    dsimp only
    rw [if_neg (by simp), if_neg (by simp)]
    unfold browse
    rw [if_neg (by decide), if_neg (by decide), if_neg (by decide), if_neg (by decide),
      if_neg (by decide), if_neg (by decide), if_neg (by decide), if_pos rfl, hb]
    dsimp only
    rw [hc]
  · intro hconf hact hb hcur hd
    have hcond : (m.confirming = true) ∧ ("y" = "y" ∨ "y" = "Y") := ⟨hconf, Or.inl rfl⟩
    unfold update
    dsimp only
    rw [if_pos hcond]
    unfold confirmYes
    rw [hb]
    dsimp only
    rw [if_pos hact, hcur, if_neg (by decide), hd]
  · intro hconf hact hb hcur hd
    have hcond : (m.confirming = true) ∧ ("y" = "y" ∨ "y" = "Y") := ⟨hconf, Or.inl rfl⟩
    unfold update
    dsimp only
    rw [if_pos hcond]
    unfold confirmYes
    rw [hb]
    dsimp only
    rw [if_neg (by rw [hact]; decide), if_pos hact, hcur, if_neg (by decide), hd]
  · intro hr
    unfold update
    dsimp only
    rw [if_neg (by simp), if_neg (by simp)]
    unfold browse
    rw [if_neg (by decide), if_neg (by decide), if_neg (by decide), if_neg (by decide),
      if_neg (by decide), if_neg (by decide), if_neg (by decide), if_neg (by decide),
      if_neg (by decide), if_neg (by decide), if_pos rfl, hr]
  · intro hr
    unfold update
    dsimp only
    rw [if_neg (by simp), if_neg (by simp)]
    unfold browse
    rw [if_neg (by decide), if_neg (by decide), if_neg (by decide), if_neg (by decide),
      if_neg (by decide), if_neg (by decide), if_neg (by decide), if_neg (by decide),
      if_neg (by decide), if_neg (by decide), if_neg (by decide), if_pos rfl, hr]
  · intro brs hr
    unfold update
    dsimp only
    rw [if_neg (by simp), if_neg (by simp)]
    unfold browse
    rw [if_neg (by decide), if_neg (by decide), if_neg (by decide), if_neg (by decide),
      if_neg (by decide), if_neg (by decide), if_neg (by decide), if_neg (by decide),
      if_neg (by decide), if_neg (by decide), if_pos rfl, hr]

/-- Witness for C7: a failed delete and a failed refresh on the concrete
confirming state leave everything but the status (and the return to
browsing) unchanged. -/
theorem gateway_failure_atomic_witness :
    ((update gBoom mConfirmDelete (Msg.key "y")).1 =
      { mConfirmDelete with status := "delete failed: boom", confirming := false, action := "" }) ∧
    ((update gBoom mConfirmDelete (Msg.key "r")).1 =
      { mConfirmDelete with status := "refresh failed: boom" }) :=
  ⟨(gateway_failure_atomic gBoom mConfirmDelete bAlpha "boom").2.1 rfl rfl rfl rfl rfl,
   (gateway_failure_atomic gBoom mConfirmDelete bAlpha "boom").2.2.2.1 rfl⟩

end Grecent
